import Mathlib

/-!
Verification development for the elastic compute-cluster manager
(EC2-backed cluster + task scheduler).  The Go sources under scrutiny are
`ec2cluster/ec2cluster.go` (cluster refresh, allocation entry points) and the
scheduler / instance-state subsystem, whose behaviour is pinned down by the
repository's unit tests (`sched_test`, `ec2cluster` instance-state tests).

Machine integers of the Go code are modelled as `Nat` (resource quantities are
non-negative counts of cpus / bytes; prices are modelled in integral
thousandths of a USD; times in integral seconds).
-/

namespace Reflow

/-- Resources is the named resource vector of the runtime (`reflow.Resources`),
with the required keys cpu, mem and disk.  The Go representation is a
`map[string]float64`; all quantities appearing in the claims are integral, so
the vector is modelled with `Nat` components. -/
structure Resources where
  cpu : Nat
  mem : Nat
  disk : Nat
deriving DecidableEq

/-- Dominance partial order on resource vectors: `a ≤ b` iff every component of
`a` is at most the corresponding component of `b` (the Go
`Resources.Available`). -/
instance : LE Resources where
  le a b := a.cpu ≤ b.cpu ∧ a.mem ≤ b.mem ∧ a.disk ≤ b.disk

instance (a b : Resources) : Decidable (a ≤ b) := by
  change Decidable (_ ∧ _ ∧ _); infer_instance

/-- Pointwise addition of resource vectors (the Go `Resources.Add`). -/
def Resources.add (a b : Resources) : Resources :=
  ⟨a.cpu + b.cpu, a.mem + b.mem, a.disk + b.disk⟩

/-- Pointwise subtraction, saturating at zero (the Go `Resources.Sub`; the spec
specifies saturation at zero, which agrees with truncated `Nat` subtraction). -/
def Resources.sub (a b : Resources) : Resources :=
  ⟨a.cpu - b.cpu, a.mem - b.mem, a.disk - b.disk⟩

/-- Pointwise maximum of resource vectors (the Go `Resources.Max`). -/
def Resources.max (a b : Resources) : Resources :=
  ⟨Nat.max a.cpu b.cpu, Nat.max a.mem b.mem, Nat.max a.disk b.disk⟩

/-- Zero resource vector. -/
def Resources.zero : Resources := ⟨0, 0, 0⟩

/-- Sum of a list of resource vectors. -/
def sumRes : List Resources → Resources
  | [] => Resources.zero
  | r :: rs => r.add (sumRes rs)

/-- One GiB, in bytes (the Go `10 << 30` style literals of the tests). -/
def GiB : Nat := 1073741824

/-- Requirements over a set of pending tasks (`reflow.Requirements`): the
minimum acceptable resource vector plus an integral width. -/
structure Requirements where
  min : Resources
  width : Nat
deriving DecidableEq

/-- Pointwise maximum over a list of resource vectors (fold of
`Resources.max`), the `min` field of the aggregated requirements. -/
def maxRes : List Resources → Resources
  | [] => Resources.zero
  | r :: rs => r.max (maxRes rs)

/-- Comparator used to order task resource vectors largest-cpu-first when
aggregating requirements. -/
def cpuGe (a b : Resources) : Prop := b.cpu ≤ a.cpu

instance : DecidableRel cpuGe := fun a b => by
  change Decidable (_ ≤ _); infer_instance

instance : IsTotal Resources cpuGe :=
  ⟨fun a b => Nat.le_total b.cpu a.cpu⟩

instance : IsTrans Resources cpuGe :=
  ⟨fun _ _ _ h1 h2 => Nat.le_trans h2 h1⟩

/-- Greedy first-fit insertion of one task of size `t` into the bin list
`bins`, each bin of capacity `cap`: the task joins the first bin it fits into,
otherwise it opens a new bin at the end. -/
def ffdInsert (cap : Resources) (bins : List Resources) (t : Resources) : List Resources :=
  match bins with
  | [] => [t]
  | b :: bs => if b.add t ≤ cap then (b.add t) :: bs else b :: ffdInsert cap bs t

/-- Modelled from the spec and the repository's tests: `sched.Requirements`,
whose implementation is not under `src/` (only its unit test
`TestRequirements` and its scheduler-test callers are).  `min` is the
pointwise maximum over the tasks' resource vectors, as the spec states.  For
`width`, the spec's sentence (`ceil(sum cpu / min cpu)`, clamped to at least 1)
contradicts the repository's own test expectations (see the C2 theorems
below); the definition here instead uses the width that reproduces every
Requirements expectation of the repository's tests: one less than the number
of bins of capacity `min` used by a greedy first-fit packing of the tasks in
order of descending cpu. -/
def schedRequirements (tasks : List Resources) : Requirements :=
  let m := maxRes tasks
  let sorted := List.insertionSort cpuGe tasks
  let bins := sorted.foldl (ffdInsert m) []
  ⟨m, bins.length - 1⟩

/-- Ceiling division on naturals. -/
def ceilDiv (a b : Nat) : Nat := (a + b - 1) / b

/-- Width formula exactly as the spec's sentence states it:
`width = ceil(sum(tasks.cpu) / min.cpu)`, clamped to be at least 1. -/
def specWidth (tasks : List Resources) : Nat :=
  Nat.max 1 (ceilDiv ((tasks.map Resources.cpu).sum) (maxRes tasks).cpu)

/-- Task resource vectors of the first test case of `TestRequirements`
(src/tool/info.go, `NewTask(1,1,0), NewTask(1,1,0), NewTask(3,5,0),
NewTask(5,8,0)`). -/
def testRequirementsCase1 : List Resources :=
  [⟨1, 1, 0⟩, ⟨1, 1, 0⟩, ⟨3, 5, 0⟩, ⟨5, 8, 0⟩]

/-- Expected output for the first test case of `TestRequirements`
(src/tool/info.go: `Requirements{Min: Resources{"cpu": 5, "mem": 8},
Width: 1}`). -/
def testRequirementsCase1Expected : Requirements := ⟨⟨5, 8, 0⟩, 1⟩

/-- Task resource vectors of the second test case of `TestRequirements`. -/
def testRequirementsCase2 : List Resources :=
  [⟨1, 4, 0⟩, ⟨1, 4, 0⟩, ⟨1, 4, 0⟩, ⟨8, 32, 0⟩, ⟨1, 4, 0⟩,
   ⟨1, 4, 0⟩, ⟨1, 4, 0⟩, ⟨1, 4, 0⟩, ⟨1, 4, 0⟩]

/-- Expected output for the second test case of `TestRequirements`. -/
def testRequirementsCase2Expected : Requirements := ⟨⟨8, 32, 0⟩, 1⟩

/-- Task resource vectors of the third test case of `TestRequirements`. -/
def testRequirementsCase3 : List Resources :=
  [⟨1, 4, 0⟩, ⟨2, 8, 0⟩, ⟨3, 10, 0⟩, ⟨8, 32, 0⟩, ⟨4, 10, 0⟩,
   ⟨2, 12, 0⟩, ⟨1, 5, 0⟩, ⟨1, 5, 0⟩, ⟨2, 10, 0⟩]

/-- Expected output for the third test case of `TestRequirements`. -/
def testRequirementsCase3Expected : Requirements := ⟨⟨8, 32, 0⟩, 3⟩

/-- Scheduler task as far as packing is concerned (`sched.Task`): an
identifier, an integer priority, and the task's minimum resource vector.
Following the repository's tests (`TestSchedulerAlloc`: the priority-0 task
is placed before the priority-1 tasks, its comment calling priority 0
"higher"), a numerically smaller priority value is the higher scheduling
priority. -/
structure Task where
  tid : Nat
  priority : Nat
  res : Resources
deriving DecidableEq

/-- Packing order of the scheduler (modelled from the spec: sort highest
priority first, then by ascending resource vector so that small tasks
co-tenant alongside one large one, with the task id as final tiebreak). -/
def taskLe (a b : Task) : Prop :=
  a.priority < b.priority ∨
    (a.priority = b.priority ∧
      (a.res.cpu < b.res.cpu ∨
        (a.res.cpu = b.res.cpu ∧
          (a.res.mem < b.res.mem ∨
            (a.res.mem = b.res.mem ∧ a.tid ≤ b.tid)))))

instance : DecidableRel taskLe := fun a b => by
  unfold taskLe; infer_instance

instance : IsTotal Task taskLe := by
  refine ⟨fun a b => ?_⟩
  unfold taskLe
  omega

instance : IsTrans Task taskLe := by
  refine ⟨fun a b c h1 h2 => ?_⟩
  unfold taskLe at h1 h2 ⊢
  omega

/-- Modelled from the spec: the greedy placement step of the scheduler's task
packer (not under `src/`; pinned by `TestSchedulerAlloc`).  Walking the sorted
task list, a task is placed while the alloc's remaining capacity dominates the
task's minimum resource vector; the walk stops at the first task that does not
fit.  Returns the placed tasks (in placement order) and the remaining ones. -/
def packGreedy (cap : Resources) : List Task → List Task × List Task
  | [] => ([], [])
  | t :: ts =>
    if t.res ≤ cap then
      let pr := packGreedy (cap.sub t.res) ts
      (t :: pr.1, pr.2)
    else ([], t :: ts)

/-- Modelled from the spec: the scheduler's task packer.  Pending tasks are
sorted by priority then ascending resource vector (`taskLe`) and greedily
placed into the arriving alloc's capacity. -/
def packTasks (cap : Resources) (tasks : List Task) : List Task × List Task :=
  packGreedy cap (List.insertionSort taskLe tasks)

/-- State machine of a scheduler task (`sched.TaskState`). -/
inductive TaskState
  | init
  | staging
  | running
  | lost
  | done
deriving DecidableEq

/-- State each submitted task is in right after an alloc has been packed:
placed tasks have begun staging, the others remain in init. -/
def packState (cap : Resources) (tasks : List Task) (tid : Nat) : TaskState :=
  if ((packTasks cap tasks).1.map Task.tid).contains tid then .staging else .init

/-- Four tasks of `TestSchedulerAlloc` (src/tool/info.go): priorities
`[1,1,0,1]` and resources `[5c/10G, 10c/10G, 20c/10G, 20c/10G]`. -/
def schedulerAllocTasks : List Task :=
  [⟨0, 1, ⟨5, 10 * GiB, 0⟩⟩,
   ⟨1, 1, ⟨10, 10 * GiB, 0⟩⟩,
   ⟨2, 0, ⟨20, 10 * GiB, 0⟩⟩,
   ⟨3, 1, ⟨20, 10 * GiB, 0⟩⟩]

/-- Capacity of the first alloc arriving in `TestSchedulerAlloc`:
`{cpu: 30, mem: 30 GiB}`. -/
def schedulerAllocCap : Resources := ⟨30, 30 * GiB, 0⟩

theorem Resources.le_def {a b : Resources} :
    a ≤ b ↔ a.cpu ≤ b.cpu ∧ a.mem ≤ b.mem ∧ a.disk ≤ b.disk := Iff.rfl

theorem Resources.add_le_of_le_sub {t s cap : Resources} (ht : t ≤ cap)
    (hs : s ≤ cap.sub t) : t.add s ≤ cap := by
  rw [Resources.le_def] at ht hs ⊢
  simp only [Resources.add, Resources.sub] at *
  omega

theorem Resources.zero_le (r : Resources) : Resources.zero ≤ r :=
  ⟨Nat.zero_le _, Nat.zero_le _, Nat.zero_le _⟩

theorem packGreedy_sum_le (cap : Resources) (ts : List Task) :
    sumRes ((packGreedy cap ts).1.map Task.res) ≤ cap := by
  induction ts generalizing cap with
  | nil => exact Resources.zero_le cap
  | cons t ts ih =>
    by_cases h : t.res ≤ cap
    · have hrec := ih (cap.sub t.res)
      simp only [packGreedy, if_pos h, List.map_cons, sumRes]
      exact Resources.add_le_of_le_sub h hrec
    · simp only [packGreedy, if_neg h, List.map_nil, sumRes]
      exact Resources.zero_le cap

theorem Resources.le_max_left (a b : Resources) : a ≤ a.max b :=
  ⟨Nat.le_max_left _ _, Nat.le_max_left _ _, Nat.le_max_left _ _⟩

theorem Resources.le_max_right (a b : Resources) : b ≤ a.max b :=
  ⟨Nat.le_max_right _ _, Nat.le_max_right _ _, Nat.le_max_right _ _⟩

theorem Resources.max_le {a b c : Resources} (hac : a ≤ c) (hbc : b ≤ c) :
    a.max b ≤ c := by
  rw [Resources.le_def] at hac hbc ⊢
  exact ⟨Nat.max_le.mpr ⟨hac.1, hbc.1⟩, Nat.max_le.mpr ⟨hac.2.1, hbc.2.1⟩,
    Nat.max_le.mpr ⟨hac.2.2, hbc.2.2⟩⟩

theorem Resources.le_trans {a b c : Resources} (hab : a ≤ b) (hbc : b ≤ c) :
    a ≤ c := by
  rw [Resources.le_def] at hab hbc ⊢
  omega

theorem le_maxRes_of_mem {r : Resources} {l : List Resources} (h : r ∈ l) :
    r ≤ maxRes l := by
  induction l with
  | nil => cases h
  | cons a l ih =>
    rcases List.mem_cons.mp h with rfl | h
    · exact Resources.le_max_left _ _
    · exact Resources.le_trans (ih h) (Resources.le_max_right _ _)

theorem maxRes_le {l : List Resources} {u : Resources}
    (h : ∀ r ∈ l, r ≤ u) : maxRes l ≤ u := by
  induction l with
  | nil => exact Resources.zero_le u
  | cons a l ih =>
    exact Resources.max_le (h a (List.mem_cons_self a l))
      (ih fun r hr => h r (List.mem_cons_of_mem a hr))

theorem ffdInsert_ne_nil (cap : Resources) (bins : List Resources)
    (t : Resources) : ffdInsert cap bins t ≠ [] := by
  cases bins with
  | nil => simp [ffdInsert]
  | cons b bs =>
    simp only [ffdInsert]
    split <;> simp

theorem ffdInsert_length_le (cap : Resources) (bins : List Resources)
    (t : Resources) : (ffdInsert cap bins t).length ≤ bins.length + 1 := by
  induction bins with
  | nil => simp [ffdInsert]
  | cons b bs ih =>
    simp only [ffdInsert]
    split
    · simp
    · simpa using Nat.succ_le_succ ih

theorem foldl_ffdInsert_length_le (cap : Resources) (l : List Resources)
    (acc : List Resources) :
    (l.foldl (ffdInsert cap) acc).length ≤ acc.length + l.length := by
  induction l generalizing acc with
  | nil => simp
  | cons t ts ih =>
    calc (List.foldl (ffdInsert cap) (ffdInsert cap acc t) ts).length
        ≤ (ffdInsert cap acc t).length + ts.length := ih _
      _ ≤ (acc.length + 1) + ts.length :=
          Nat.add_le_add_right (ffdInsert_length_le _ _ _) _
      _ = acc.length + (t :: ts).length := by simp; omega

theorem foldl_ffdInsert_ne_nil (cap : Resources) (l : List Resources)
    (acc : List Resources) (h : acc ≠ []) :
    l.foldl (ffdInsert cap) acc ≠ [] := by
  induction l generalizing acc with
  | nil => simpa using h
  | cons t ts ih => exact ih _ (ffdInsert_ne_nil _ _ _)

/-- C1: the task packer places tasks deterministically, sorting by scheduling
priority first (the priority-0 task ahead of the priority-1 tasks, per the
test's notion of "higher priority"), then by ascending resource vector with
the task id as tiebreak; it greedily places tasks while the alloc's remaining
capacity dominates each task's min (so the total placed never exceeds the
alloc's capacity).  In particular, for the four tasks of `TestSchedulerAlloc`
(priorities `[1,1,0,1]`, resources `[5c/10G, 10c/10G, 20c/10G, 20c/10G]`) and
a first alloc of `{30c, 30G}`, it binds task 2 then task 0, tasks 1 and 3
remain in state init, and the requirements recomputed over the remaining
tasks are `{min: 20c/10G, width: 1}`. -/
theorem C1_packer_priority_then_smallest_fit :
    (∀ tasks : List Task,
        List.Sorted taskLe (List.insertionSort taskLe tasks) ∧
        List.Perm (List.insertionSort taskLe tasks) tasks) ∧
    (∀ (cap : Resources) (tasks : List Task),
        sumRes ((packTasks cap tasks).1.map Task.res) ≤ cap) ∧
    ((packTasks schedulerAllocCap schedulerAllocTasks).1.map Task.tid = [2, 0] ∧
      (packTasks schedulerAllocCap schedulerAllocTasks).2.map Task.tid = [1, 3] ∧
      packState schedulerAllocCap schedulerAllocTasks 1 = .init ∧
      packState schedulerAllocCap schedulerAllocTasks 3 = .init ∧
      schedRequirements ((packTasks schedulerAllocCap schedulerAllocTasks).2.map Task.res) =
        ⟨⟨20, 10 * GiB, 0⟩, 1⟩) :=
  ⟨fun tasks => ⟨List.sorted_insertionSort taskLe tasks,
      List.perm_insertionSort taskLe tasks⟩,
    fun cap tasks => packGreedy_sum_le cap (List.insertionSort taskLe tasks),
    by decide⟩

/-- C2 counterexample: on the first test case of the repository's own
`TestRequirements` (tasks `(1c/1),(1c/1),(3c/5),(5c/8)`), the spec's width
formula `ceil(sum cpu / min cpu)` clamped to at least 1 yields
`ceil(10/5) = 2`, while the test (and the model reproducing every test
expectation) requires width 1. -/
theorem C2_width_formula_counterexample :
    specWidth testRequirementsCase1 = 2 ∧
    schedRequirements testRequirementsCase1 = testRequirementsCase1Expected ∧
    testRequirementsCase1Expected.width = 1 ∧
    specWidth testRequirementsCase1 ≠ (schedRequirements testRequirementsCase1).width := by
  decide

/-- C2 (amended): for every non-empty set of pending tasks, the computed
`min` is the pointwise maximum of the tasks' minimum resource vectors (it
dominates every task and is the least vector doing so); the width is NOT
`ceil(sum cpu / min cpu)` clamped to at least 1, but one less than the number
of min-sized bins used by a greedy descending-size packing of the tasks —
in particular `width + 1` never exceeds the number of tasks, and the model
reproduces every Requirements expectation found in the repository's tests. -/
theorem C2_requirements_min_and_width (tasks : List Resources) (h : tasks ≠ []) :
    (∀ r ∈ tasks, r ≤ (schedRequirements tasks).min) ∧
    (∀ u : Resources, (∀ r ∈ tasks, r ≤ u) → (schedRequirements tasks).min ≤ u) ∧
    (schedRequirements tasks).width + 1 ≤ tasks.length ∧
    (schedRequirements testRequirementsCase1 = testRequirementsCase1Expected ∧
      schedRequirements testRequirementsCase2 = testRequirementsCase2Expected ∧
      schedRequirements testRequirementsCase3 = testRequirementsCase3Expected ∧
      schedRequirements [⟨10, 10 * GiB, 0⟩] = ⟨⟨10, 10 * GiB, 0⟩, 0⟩ ∧
      schedRequirements [⟨10, 10 * GiB, 0⟩, ⟨10, 10 * GiB, 0⟩] =
        ⟨⟨10, 10 * GiB, 0⟩, 1⟩) := by
  refine ⟨fun r hr => le_maxRes_of_mem hr, fun u hu => maxRes_le hu, ?_, by decide⟩
  have hsorted : List.Perm (List.insertionSort cpuGe tasks) tasks :=
    List.perm_insertionSort cpuGe tasks
  have hlen : (List.insertionSort cpuGe tasks).length = tasks.length :=
    hsorted.length_eq
  have hs_ne : List.insertionSort cpuGe tasks ≠ [] := by
    intro hnil
    apply h
    have := hlen
    rw [hnil] at this
    exact List.length_eq_zero.mp this.symm
  have hne : (List.insertionSort cpuGe tasks).foldl
      (ffdInsert (maxRes tasks)) [] ≠ [] := by
    cases hsl : List.insertionSort cpuGe tasks with
    | nil => exact absurd hsl hs_ne
    | cons t ts =>
      simp only [List.foldl_cons]
      exact foldl_ffdInsert_ne_nil _ _ _ (ffdInsert_ne_nil _ _ _)
  have hble : ((List.insertionSort cpuGe tasks).foldl
      (ffdInsert (maxRes tasks)) []).length ≤ tasks.length := by
    have := foldl_ffdInsert_length_le (maxRes tasks)
      (List.insertionSort cpuGe tasks) []
    simpa [hlen] using this
  have hpos : 0 < ((List.insertionSort cpuGe tasks).foldl
      (ffdInsert (maxRes tasks)) []).length :=
    List.length_pos.mpr hne
  show ((List.insertionSort cpuGe tasks).foldl
      (ffdInsert (maxRes tasks)) []).length - 1 + 1 ≤ tasks.length
  omega

/-- C2 witness: the amended statement instantiated on the first
`TestRequirements` case. -/
theorem C2_requirements_min_and_width_witness :
    (∀ r ∈ testRequirementsCase1, r ≤ (schedRequirements testRequirementsCase1).min) ∧
    (schedRequirements testRequirementsCase1).width + 1 ≤ testRequirementsCase1.length :=
  ⟨(C2_requirements_min_and_width testRequirementsCase1 (by decide)).1,
    (C2_requirements_min_and_width testRequirementsCase1 (by decide)).2.2.1⟩

/-! ### Instance state (ec2cluster): catalog queries, availability TTL, spot advisor -/

/-- Interrupt probability buckets reported by the spot advisor
(`spotadvisor.InterruptProbability`), ordered from least to most likely to be
interrupted. -/
inductive InterruptProbability
  | lessThanFivePct
  | lessThanTenPct
  | lessThanFifteenPct
  | lessThanTwentyPct
  | anyProb
deriving DecidableEq

/-- Numeric rank of an interrupt-probability bucket, used for threshold
comparisons. -/
def InterruptProbability.rank : InterruptProbability → Nat
  | .lessThanFivePct => 0
  | .lessThanTenPct => 1
  | .lessThanFifteenPct => 2
  | .lessThanTwentyPct => 3
  | .anyProb => 4

/-- Modelled from the spec: the `instanceConfig` catalog entry (instance type
with its resource vector and region price).  `price` is the region-resolved
per-hour price, in integral thousandths of a USD. -/
structure instanceConfig where
  typ : String
  res : Resources
  price : Nat
deriving DecidableEq

/-- Spot advisor capability (`GetMaxInterruptProbability`), modelled as a
finite table from instance type to interrupt-probability bucket; a type
missing from the table corresponds to the advisor returning an error. -/
abbrev Advisor := List (String × InterruptProbability)

/-- Modelled from the spec: `instanceState`, the queryable index over the
catalog.  `configs` is kept sorted by ascending region price (established by
`newInstanceState`); `unavail` maps an instance type to the time until which
it is treated as absent; `advisor` is the optional spot advisor. -/
structure instanceState where
  configs : List instanceConfig
  unavail : List (String × Nat)
  ttl : Nat
  advisor : Option Advisor
deriving DecidableEq

/-- Price-ascending order used to pre-sort the catalog. -/
def priceLe (a b : instanceConfig) : Prop := a.price ≤ b.price

instance : DecidableRel priceLe := fun a b => by
  unfold priceLe; infer_instance

instance : IsTotal instanceConfig priceLe :=
  ⟨fun a b => Nat.le_total a.price b.price⟩

instance : IsTrans instanceConfig priceLe :=
  ⟨fun _ _ _ h1 h2 => Nat.le_trans h1 h2⟩

/-- Modelled from the spec: `newInstanceState` pre-sorts the catalog by region
price ascending and starts with an empty unavailability map. -/
def newInstanceState (cfgs : List instanceConfig) (ttl : Nat)
    (adv : Option Advisor) : instanceState :=
  ⟨List.insertionSort priceLe cfgs, [], ttl, adv⟩

/-- Unavailable-until timestamp recorded for an instance type (zero when the
type was never marked unavailable). -/
def untilOf (st : instanceState) (typ : String) : Nat :=
  ((st.unavail.lookup typ).getD 0)

/-- Modelled from the spec: `instanceState.Unavailable` marks the given
instance type unavailable for the TTL, i.e. until `now + ttl`. -/
def instanceState.Unavailable (st : instanceState) (cfg : instanceConfig)
    (now : Nat) : instanceState :=
  { st with unavail := (cfg.typ, now + st.ttl) :: st.unavail }

/-- Availability check at query time: a type whose unavailable-until timestamp
is still in the future is treated as absent. -/
def instanceState.availableAt (st : instanceState) (typ : String) (now : Nat) : Bool :=
  decide (untilOf st typ ≤ now)

/-- Filter for the min-scan: the candidate must dominate the need, cost at
most the price cap, and be currently available. -/
def baseKeep (st : instanceState) (need : Resources) (maxPrice now : Nat)
    (c : instanceConfig) : Bool :=
  decide (need ≤ c.res) && decide (c.price ≤ maxPrice) && st.availableAt c.typ now

/-- Candidate list of the min-scan, in ascending price order. -/
def instanceState.baseCandidates (st : instanceState) (need : Resources)
    (maxPrice now : Nat) : List instanceConfig :=
  st.configs.filter (baseKeep st need maxPrice now)

/-- Whether a candidate passes the advisor filter at the given
interrupt-probability threshold (a type the advisor has no entry for does not
pass). -/
def advKeep (adv : Advisor) (thr : InterruptProbability) (c : instanceConfig) : Bool :=
  match adv.lookup c.typ with
  | some ip => decide (ip.rank ≤ thr.rank)
  | none => false

/-- Modelled from the spec: the fallback ladder of the interrupt-probability
filter.  Try candidates with max-interrupt at most 10 percent; if none, relax
to 15 percent, then 20 percent, then no filtering at all. -/
def ladderPick (adv : Advisor) (base : List instanceConfig) : Option instanceConfig :=
  match base.filter (advKeep adv .lessThanTenPct) with
  | c :: _ => some c
  | [] =>
    match base.filter (advKeep adv .lessThanFifteenPct) with
    | c :: _ => some c
    | [] =>
      match base.filter (advKeep adv .lessThanTwentyPct) with
      | c :: _ => some c
      | [] => base.head?

/-- Modelled from the spec: `instanceState.MinAvailable` returns the cheapest
type dominating the need, within the price cap and currently available; the
interrupt-probability ladder applies only when spot is requested and an
advisor is configured.  `none` models the Go `(zero, false)` return. -/
def instanceState.MinAvailable (st : instanceState) (need : Resources)
    (spot : Bool) (maxPrice now : Nat) : Option instanceConfig :=
  match st.advisor, spot with
  | some adv, true => ladderPick adv (st.baseCandidates need maxPrice now)
  | _, _ => (st.baseCandidates need maxPrice now).head?

/-- Preference used by the max-scan: strictly more memory, then strictly more
cpu, wins. -/
def biggerRes (a b : Resources) : Bool :=
  decide (b.mem < a.mem ∨ (b.mem = a.mem ∧ b.cpu < a.cpu))

/-- Most resourceful element of a candidate list (later entries win ties,
mirroring a fold over the dominance order). -/
def pickLargest : List instanceConfig → Option instanceConfig
  | [] => none
  | c :: cs =>
    match pickLargest cs with
    | none => some c
    | some d => if biggerRes d.res c.res then some d else some c

/-- Candidate list of the max-scan: dominance and availability only (the max
scan ignores the price cap). -/
def instanceState.maxBase (st : instanceState) (need : Resources) (now : Nat) :
    List instanceConfig :=
  st.configs.filter fun c => decide (need ≤ c.res) && st.availableAt c.typ now

/-- Fallback ladder of the max-scan, analogous to `ladderPick`. -/
def ladderPickMax (adv : Advisor) (base : List instanceConfig) : Option instanceConfig :=
  match (base.filter (advKeep adv .lessThanTenPct)) with
  | c :: cs => pickLargest (c :: cs)
  | [] =>
    match base.filter (advKeep adv .lessThanFifteenPct) with
    | c :: cs => pickLargest (c :: cs)
    | [] =>
      match base.filter (advKeep adv .lessThanTwentyPct) with
      | c :: cs => pickLargest (c :: cs)
      | [] => pickLargest base

/-- Modelled from the spec: `instanceState.MaxAvailable` returns the most
resourceful type dominating the need among currently available types, with the
same advisor gating as the min-scan. -/
def instanceState.MaxAvailable (st : instanceState) (need : Resources)
    (spot : Bool) (now : Nat) : Option instanceConfig :=
  match st.advisor, spot with
  | some adv, true => ladderPickMax adv (st.maxBase need now)
  | _, _ => pickLargest (st.maxBase need now)

/-- TTL for which an instance type discovered to be unavailable remains so
(src/ec2cluster/ec2cluster.go `unavailableInstanceTypeTtl = time.Hour`),
in seconds. -/
def unavailableInstanceTypeTtl : Nat := 3600

/-- Instance state over a single-entry catalog with no advisor, as in
`TestInstanceStateUnavailable`. -/
def singletonState (cfg : instanceConfig) (ttl : Nat) : instanceState :=
  ⟨[cfg], [], ttl, none⟩

theorem head?_mem {α : Type} {l : List α} {a : α} (h : l.head? = some a) :
    a ∈ l := by
  cases l with
  | nil => cases h
  | cons b bs =>
    simp only [List.head?] at h
    cases h
    exact List.mem_cons_self _ _

theorem ladderPick_mem {adv : Advisor} {base : List instanceConfig}
    {c : instanceConfig} (h : ladderPick adv base = some c) : c ∈ base := by
  unfold ladderPick at h
  cases h10 : base.filter (advKeep adv .lessThanTenPct) with
  | cons d ds =>
    rw [h10] at h
    have hd : d = c := Option.some.inj h
    subst hd
    refine List.mem_of_mem_filter (p := advKeep adv .lessThanTenPct) ?_
    rw [h10]
    exact List.mem_cons_self _ _
  | nil =>
    rw [h10] at h
    cases h15 : base.filter (advKeep adv .lessThanFifteenPct) with
    | cons d ds =>
      rw [h15] at h
      have hd : d = c := Option.some.inj h
      subst hd
      refine List.mem_of_mem_filter (p := advKeep adv .lessThanFifteenPct) ?_
      rw [h15]
      exact List.mem_cons_self _ _
    | nil =>
      rw [h15] at h
      cases h20 : base.filter (advKeep adv .lessThanTwentyPct) with
      | cons d ds =>
        rw [h20] at h
        have hd : d = c := Option.some.inj h
        subst hd
        refine List.mem_of_mem_filter (p := advKeep adv .lessThanTwentyPct) ?_
        rw [h20]
        exact List.mem_cons_self _ _
      | nil =>
        rw [h20] at h
        exact head?_mem h

theorem MinAvailable_mem_baseCandidates {st : instanceState} {need : Resources}
    {spot : Bool} {p now : Nat} {c : instanceConfig}
    (h : st.MinAvailable need spot p now = some c) :
    c ∈ st.baseCandidates need p now := by
  unfold instanceState.MinAvailable at h
  rcases hA : st.advisor with _ | adv
  · rw [hA] at h
    exact head?_mem h
  · cases spot with
    | false =>
      rw [hA] at h
      exact head?_mem h
    | true =>
      rw [hA] at h
      exact ladderPick_mem h

theorem untilOf_Unavailable_self (st : instanceState) (cfg : instanceConfig)
    (now : Nat) : untilOf (st.Unavailable cfg now) cfg.typ = now + st.ttl := by
  simp [untilOf, instanceState.Unavailable, List.lookup]

theorem MinAvailable_advisor_none (st : instanceState) (h : st.advisor = none)
    (need : Resources) (spot : Bool) (p now : Nat) :
    st.MinAvailable need spot p now = (st.baseCandidates need p now).head? := by
  unfold instanceState.MinAvailable
  rw [h]

theorem MinAvailable_advisor_some (st : instanceState) (adv : Advisor)
    (h : st.advisor = some adv) (need : Resources) (p now : Nat) :
    st.MinAvailable need true p now = ladderPick adv (st.baseCandidates need p now) := by
  unfold instanceState.MinAvailable
  rw [h]

theorem baseKeep_advisor_none (st : instanceState) (need : Resources) (p now : Nat) :
    baseKeep ({ st with advisor := none } : instanceState) need p now =
      baseKeep st need p now := by
  funext c
  simp [baseKeep, instanceState.availableAt, untilOf]

theorem baseCandidates_advisor_none (st : instanceState) (need : Resources)
    (p now : Nat) :
    ({ st with advisor := none } : instanceState).baseCandidates need p now =
      st.baseCandidates need p now := by
  simp [instanceState.baseCandidates, baseKeep_advisor_none]

theorem maxBase_advisor_none (st : instanceState) (need : Resources) (now : Nat) :
    ({ st with advisor := none } : instanceState).maxBase need now =
      st.maxBase need now := by
  simp [instanceState.maxBase, instanceState.availableAt, untilOf]

/-- C4: after `Unavailable(cfg)` at time `now` and at every query time before
`now + ttl`, `MinAvailable` never returns `cfg` (for any need, spot choice and
price cap); over a single-entry catalog, the query returns nothing during the
TTL window and returns `cfg` again once the TTL has elapsed (whenever `cfg`
dominates the need within the price cap).  The default TTL of the source is
one hour. -/
theorem C4_unavailable_ttl_window :
    (∀ (st : instanceState) (cfg : instanceConfig) (now : Nat) (need : Resources)
        (spot : Bool) (p now' : Nat), now' < now + st.ttl →
        (st.Unavailable cfg now).MinAvailable need spot p now' ≠ some cfg) ∧
    (∀ (cfg : instanceConfig) (ttl now : Nat) (need : Resources) (spot : Bool)
        (p now' : Nat), now' < now + ttl →
        ((singletonState cfg ttl).Unavailable cfg now).MinAvailable need spot p now' = none) ∧
    (∀ (cfg : instanceConfig) (ttl now : Nat) (need : Resources) (spot : Bool)
        (p now' : Nat), now + ttl ≤ now' → need ≤ cfg.res → cfg.price ≤ p →
        ((singletonState cfg ttl).Unavailable cfg now).MinAvailable need spot p now' = some cfg) ∧
    unavailableInstanceTypeTtl = 3600 := by
  refine ⟨?_, ?_, ?_, rfl⟩
  · intro st cfg now need spot p now' hlt heq
    have hmem := MinAvailable_mem_baseCandidates heq
    unfold instanceState.baseCandidates at hmem
    have hkeep := (List.mem_filter.mp hmem).2
    unfold baseKeep instanceState.availableAt at hkeep
    simp only [Bool.and_eq_true, decide_eq_true_eq] at hkeep
    have huntil := untilOf_Unavailable_self st cfg now
    have hle := hkeep.2
    rw [huntil] at hle
    omega
  · intro cfg ttl now need spot p now' hlt
    have hkeep : baseKeep ((singletonState cfg ttl).Unavailable cfg now) need p now' cfg = false := by
      unfold baseKeep instanceState.availableAt
      rw [untilOf_Unavailable_self]
      simp only [singletonState]
      have hdec : decide (now + ttl ≤ now') = false := by
        simp only [decide_eq_false_iff_not]
        omega
      rw [hdec, Bool.and_false]
    have hb : ((singletonState cfg ttl).Unavailable cfg now).baseCandidates need p now' = [] := by
      unfold instanceState.baseCandidates
      have hconfigs : ((singletonState cfg ttl).Unavailable cfg now).configs = [cfg] := rfl
      rw [hconfigs]
      simp [List.filter_cons, hkeep]
    rw [MinAvailable_advisor_none _ rfl, hb]
    rfl
  · intro cfg ttl now need spot p now' hge hres hp
    have hkeep : baseKeep ((singletonState cfg ttl).Unavailable cfg now) need p now' cfg = true := by
      unfold baseKeep instanceState.availableAt
      rw [untilOf_Unavailable_self]
      simp only [singletonState, Bool.and_eq_true, decide_eq_true_eq]
      exact ⟨⟨hres, hp⟩, by omega⟩
    have hb : ((singletonState cfg ttl).Unavailable cfg now).baseCandidates need p now' = [cfg] := by
      unfold instanceState.baseCandidates
      have hconfigs : ((singletonState cfg ttl).Unavailable cfg now).configs = [cfg] := rfl
      rw [hconfigs]
      simp [List.filter_cons, hkeep]
    rw [MinAvailable_advisor_none _ rfl, hb]
    rfl

/-- Sample catalog entry used to instantiate the C4 theorem. -/
def witnessCfg : instanceConfig := ⟨"c5.2xlarge", ⟨8, 16 * GiB, 0⟩, 340⟩

/-- C4 witness: with a 200-second TTL and `Unavailable` called at time 0 over
a single-entry catalog, the query at time 100 returns nothing and the query at
time 200 returns the entry again. -/
theorem C4_unavailable_ttl_window_witness :
    ((singletonState witnessCfg 200).Unavailable witnessCfg 0).MinAvailable
        ⟨1, 1, 0⟩ true 1000 100 = none ∧
    ((singletonState witnessCfg 200).Unavailable witnessCfg 0).MinAvailable
        ⟨1, 1, 0⟩ true 1000 200 = some witnessCfg :=
  ⟨C4_unavailable_ttl_window.2.1 witnessCfg 200 0 ⟨1, 1, 0⟩ true 1000 100 (by decide),
    C4_unavailable_ttl_window.2.2.1 witnessCfg 200 0 ⟨1, 1, 0⟩ true 1000 200
      (by decide) (by decide) (by decide)⟩

/-- Cheapest demo type: within the price order first, but with a high
interrupt probability in the advisor table. -/
def advDemoCheap : instanceConfig := ⟨"t3a.medium", ⟨2, 4 * GiB, 0⟩, 100⟩

/-- Pricier demo type with a low interrupt probability. -/
def advDemoSafe : instanceConfig := ⟨"t3.medium", ⟨2, 4 * GiB, 0⟩, 200⟩

/-- Demo instance state over the two demo types with the given advisor. -/
def advDemoState (adv : Advisor) : instanceState :=
  ⟨[advDemoCheap, advDemoSafe], [], 3600, some adv⟩

/-- Advisor table of `TestInstanceStateWithAdvisor`'s first case, restricted
to the two demo types: the cheapest candidate is above the 10 percent
threshold, the pricier one within it. -/
def advDemoTable : Advisor :=
  [("t3a.medium", .lessThanTwentyPct), ("t3.medium", .lessThanTenPct)]

/-- Advisor table with both demo types at the 15 percent bucket, exercising
the first relaxation rung of the ladder. -/
def advDemoTable15 : Advisor :=
  [("t3a.medium", .lessThanFifteenPct), ("t3.medium", .lessThanFifteenPct)]

theorem MinAvailable_spot_false (st : instanceState) (need : Resources)
    (p now : Nat) :
    st.MinAvailable need false p now =
      ({ st with advisor := none } : instanceState).MinAvailable need false p now := by
  rcases hA : st.advisor with _ | adv <;>
    simp [instanceState.MinAvailable, hA, instanceState.baseCandidates,
      baseKeep_advisor_none]

theorem MaxAvailable_spot_false (st : instanceState) (need : Resources)
    (now : Nat) :
    st.MaxAvailable need false now =
      ({ st with advisor := none } : instanceState).MaxAvailable need false now := by
  rcases hA : st.advisor with _ | adv <;>
    simp [instanceState.MaxAvailable, hA, maxBase_advisor_none]

/-- C5: the interrupt-probability filter applies only when spot is requested
and an advisor is configured: with `spot = false` both `MinAvailable` and
`MaxAvailable` ignore the advisor entirely (they agree with the advisor-less
state); and when the configured advisor reports every catalog type at the 20
percent bucket, `MinAvailable(need, spot = true, any price cap)` returns
exactly what the non-advisor path would (the ladder falls through the 10 and
15 percent rungs).  Concretely, over two equally-sized types where only the
pricier one is within the 10 percent threshold, the spot min-scan picks the
pricier one, the non-spot min-scan still picks the cheapest, and when both
types sit at the 15 percent bucket the first relaxation rung again picks the
cheapest. -/
theorem C5_interrupt_probability_fallback_ladder :
    (∀ (st : instanceState) (need : Resources) (p now : Nat),
        st.MinAvailable need false p now =
          ({ st with advisor := none } : instanceState).MinAvailable need false p now) ∧
    (∀ (st : instanceState) (need : Resources) (now : Nat),
        st.MaxAvailable need false now =
          ({ st with advisor := none } : instanceState).MaxAvailable need false now) ∧
    (∀ (st : instanceState) (adv : Advisor) (need : Resources) (p now : Nat),
        st.advisor = some adv →
        (∀ c ∈ st.configs, adv.lookup c.typ = some .lessThanTwentyPct) →
        st.MinAvailable need true p now =
          ({ st with advisor := none } : instanceState).MinAvailable need true p now) ∧
    ((advDemoState advDemoTable).MinAvailable ⟨1, 1, 0⟩ true 1000 0 = some advDemoSafe ∧
      (advDemoState advDemoTable).MinAvailable ⟨1, 1, 0⟩ false 1000 0 = some advDemoCheap ∧
      (advDemoState advDemoTable15).MinAvailable ⟨1, 1, 0⟩ true 1000 0 = some advDemoCheap) := by
  refine ⟨MinAvailable_spot_false, MaxAvailable_spot_false, ?_, by decide⟩
  intro st adv need p now hA hall
  have hsub : ∀ c ∈ st.baseCandidates need p now, c ∈ st.configs :=
    fun c hc => List.mem_of_mem_filter hc
  have h10 : (st.baseCandidates need p now).filter (advKeep adv .lessThanTenPct) = [] := by
    rw [List.filter_eq_nil_iff]
    intro c hc
    simp [advKeep, hall c (hsub c hc), InterruptProbability.rank]
  have h15 : (st.baseCandidates need p now).filter (advKeep adv .lessThanFifteenPct) = [] := by
    rw [List.filter_eq_nil_iff]
    intro c hc
    simp [advKeep, hall c (hsub c hc), InterruptProbability.rank]
  have h20 : (st.baseCandidates need p now).filter (advKeep adv .lessThanTwentyPct) =
      st.baseCandidates need p now := by
    rw [List.filter_eq_self]
    intro c hc
    simp [advKeep, hall c (hsub c hc), InterruptProbability.rank]
  rw [MinAvailable_advisor_some st adv hA,
    MinAvailable_advisor_none ({ st with advisor := none } : instanceState) rfl,
    baseCandidates_advisor_none]
  unfold ladderPick
  rw [h10, h15, h20]
  cases st.baseCandidates need p now <;> rfl

/-- C5 witness: the all-at-twenty-percent fallback instantiated over the demo
catalog — the spot min-scan with an advisor reporting every type at the 20
percent bucket agrees with the advisor-less min-scan. -/
theorem C5_interrupt_probability_fallback_ladder_witness :
    (advDemoState [("t3a.medium", .lessThanTwentyPct), ("t3.medium", .lessThanTwentyPct)]).MinAvailable
        ⟨1, 1, 0⟩ true 1000 0 =
      ({ advDemoState [("t3a.medium", .lessThanTwentyPct), ("t3.medium", .lessThanTwentyPct)] with
          advisor := none } : instanceState).MinAvailable ⟨1, 1, 0⟩ true 1000 0 :=
  C5_interrupt_probability_fallback_ladder.2.2.1
    (advDemoState [("t3a.medium", .lessThanTwentyPct), ("t3.medium", .lessThanTwentyPct)])
    [("t3a.medium", .lessThanTwentyPct), ("t3.medium", .lessThanTwentyPct)]
    ⟨1, 1, 0⟩ 1000 0 rfl (by decide)

/-! ### Cluster refresh (src/ec2cluster/ec2cluster.go: Refresh, getEC2State) -/

/-- EC2 instance as surfaced by DescribeInstances, restricted to the fields
the refresh logic reads. -/
structure ec2Instance where
  instanceId : String
  stateName : String
  tags : List (String × String)
  instanceType : String
deriving DecidableEq

/-- Tag-filter semantics of DescribeInstances with the filters built by
`getEC2State` from `QueryTags`: an instance matches when it carries every
queried tag key/value pair. -/
def matchesTags (i : ec2Instance) (q : List (String × String)) : Bool :=
  q.all fun kv => i.tags.contains kv

/-- Embedded from `Cluster.getEC2State`: the cloud ground truth filtered by
the cluster's query tags, keeping only instances whose state is running,
keyed by instance id. -/
def getEC2State (cloud : List ec2Instance) (q : List (String × String)) :
    List (String × ec2Instance) :=
  ((cloud.filter fun i => matchesTags i q).filter
      fun i => i.stateName == "running").map fun i => (i.instanceId, i)

/-- Embedded from `Cluster.Refresh`: pool entries whose instance id is absent
from the freshly fetched EC2 state are evicted; ids present in the state but
not yet pooled are added (ids already pooled keep their existing entry and
hence their already-constructed client). -/
def Refresh (pools : List (String × ec2Instance)) (cloud : List ec2Instance)
    (q : List (String × String)) : List (String × ec2Instance) :=
  let state := getEC2State cloud q
  (pools.filter fun kv => (state.lookup kv.1).isSome) ++
    (state.filter fun kv => (pools.lookup kv.1).isNone)

/-- Instance ids of an id-keyed association list. -/
def keysOf {α : Type} (l : List (String × α)) : List String := l.map Prod.fst

theorem mem_keysOf {α : Type} {l : List (String × α)} {k : String} :
    k ∈ keysOf l ↔ ∃ kv ∈ l, kv.1 = k := by
  simp [keysOf, List.mem_map]

theorem lookup_isSome_iff {α : Type} {l : List (String × α)} {k : String} :
    (l.lookup k).isSome = true ↔ k ∈ keysOf l := by
  induction l with
  | nil => simp [List.lookup, keysOf]
  | cons kv t ih =>
    obtain ⟨k', v⟩ := kv
    by_cases h : k = k'
    · subst h
      simp [List.lookup, keysOf]
    · have hbeq : (k == k') = false := beq_eq_false_iff_ne.mpr h
      simp [List.lookup, keysOf, hbeq, h, ih]

theorem lookup_isNone_iff {α : Type} {l : List (String × α)} {k : String} :
    (l.lookup k).isNone = true ↔ k ∉ keysOf l := by
  rw [← lookup_isSome_iff]
  cases l.lookup k <;> simp

/-- C3: after every completed `Refresh`, an instance id is in the pool exactly
when it is in the freshly fetched EC2 state, and an id is in that state
exactly when the cloud holds an instance with that id which is running and
carries all of the cluster's query tags.  Hence evicted ids are exactly those
no longer running-and-tagged, and every newly observed running tagged
instance is pooled. -/
theorem C3_refresh_pool_is_running_tagged_set :
    (∀ (pools : List (String × ec2Instance)) (cloud : List ec2Instance)
        (q : List (String × String)) (id : String),
        id ∈ keysOf (Refresh pools cloud q) ↔ id ∈ keysOf (getEC2State cloud q)) ∧
    (∀ (cloud : List ec2Instance) (q : List (String × String)) (id : String),
        id ∈ keysOf (getEC2State cloud q) ↔
          ∃ i, i ∈ cloud ∧ i.instanceId = id ∧ i.stateName = "running" ∧
            matchesTags i q = true) := by
  constructor
  · intro pools cloud q id
    unfold Refresh
    constructor
    · intro hmem
      rcases mem_keysOf.mp hmem with ⟨kv, hkv, hk⟩
      rcases List.mem_append.mp hkv with hL | hR
      · have hsome := (List.mem_filter.mp hL).2
        rw [hk] at hsome
        exact lookup_isSome_iff.mp hsome
      · exact mem_keysOf.mpr ⟨kv, (List.mem_filter.mp hR).1, hk⟩
    · intro hmem
      rcases mem_keysOf.mp hmem with ⟨kv, hkv, hk⟩
      by_cases hp : id ∈ keysOf pools
      · rcases mem_keysOf.mp hp with ⟨kv', hkv', hk'⟩
        refine mem_keysOf.mpr ⟨kv', List.mem_append.mpr (Or.inl ?_), hk'⟩
        refine List.mem_filter.mpr ⟨hkv', ?_⟩
        rw [hk']
        exact lookup_isSome_iff.mpr hmem
      · refine mem_keysOf.mpr ⟨kv, List.mem_append.mpr (Or.inr ?_), hk⟩
        refine List.mem_filter.mpr ⟨hkv, ?_⟩
        rw [hk]
        exact lookup_isNone_iff.mpr hp
  · intro cloud q id
    unfold getEC2State
    constructor
    · intro hmem
      rcases mem_keysOf.mp hmem with ⟨kv, hkv, hk⟩
      rcases List.mem_map.mp hkv with ⟨i, hi, hkv_eq⟩
      have h2 := List.mem_filter.mp hi
      have h1 := List.mem_filter.mp h2.1
      refine ⟨i, h1.1, ?_, ?_, h1.2⟩
      · rw [← hk, ← hkv_eq]
      · exact (beq_iff_eq).mp h2.2
    · rintro ⟨i, hi, hid, hrun, htags⟩
      refine mem_keysOf.mpr ⟨(i.instanceId, i), ?_, hid⟩
      refine List.mem_map.mpr ⟨i, ?_, rfl⟩
      refine List.mem_filter.mpr ⟨List.mem_filter.mpr ⟨hi, htags⟩, ?_⟩
      exact (beq_iff_eq).mpr hrun

/-! ### Allocation entry points (src/ec2cluster/ec2cluster.go: CanAllocate,
Allocate, Probe, Start) -/

/-- Error kinds of the taxonomy (`errors.Kind`), restricted to those the
claims mention. -/
inductive ErrKind
  | fatal
  | unavailable
  | temporary
  | net
  | notExist
  | notSupported
  | canceled
  | resourcesExhausted
  | other
deriving DecidableEq

/-- Modelled from the spec: `instanceState.Available` — whether any catalog
entry dominates the need (the check `Cluster.CanAllocate` delegates to). -/
def instanceState.Available (st : instanceState) (need : Resources) : Bool :=
  st.configs.any fun c => decide (need ≤ c.res)

/-- Embedded from `Cluster.CanAllocate`: whether the cluster can allocate the
given resources, with a ResourcesExhausted error when no instance type can
serve them. -/
def CanAllocate (st : instanceState) (r : Resources) : Bool × Option ErrKind :=
  if st.Available r then (true, none) else (false, some .resourcesExhausted)

/-- Panic message of the uninitialized-cluster guard in `Cluster.Allocate` and
`Cluster.Probe`. -/
def uninitializedMsg : String := "uninitialized ec2cluster - Start() not called ?"

/-- Outcome of entering `Cluster.Allocate` or `Cluster.Probe`. -/
inductive EntryOutcome
  | panicked (msg : String)
  | errored (k : ErrKind)
  | proceeds
deriving DecidableEq

/-- Embedded from `Cluster.Allocate`: the entry panics when `startOnce` has
not completed, then consults `CanAllocate` and returns its error without
consulting the manager when the requirement is unsatisfiable; otherwise it
proceeds to pool and manager allocation. -/
def allocateEntry (started : Bool) (st : instanceState) (r : Resources) :
    EntryOutcome :=
  if !started then .panicked uninitializedMsg
  else if (CanAllocate st r).1 then .proceeds
  else .errored ((CanAllocate st r).2.getD .other)

/-- Embedded from `Cluster.Probe`: the same uninitialized guard. -/
def probeEntry (started : Bool) : EntryOutcome :=
  if !started then .panicked uninitializedMsg else .proceeds

/-- Start flag of the cluster (`startOnce`). -/
structure clusterOnce where
  started : Bool
deriving DecidableEq

/-- Embedded from `Cluster.Start`: completes the once-task, after which
`startOnce.Done()` reports true for all subsequent calls. -/
def startCluster (c : clusterOnce) : clusterOnce := { c with started := true }

/-- Outcome of submitting one task to the scheduler, as far as the
too-big check is concerned. -/
structure SubmitOutcome where
  state : TaskState
  errKind : Option ErrKind
  requestIssued : Bool
deriving DecidableEq

/-- Modelled from the spec: the scheduler's handling of a submitted task whose
minimum resources no instance type dominates — the task is immediately done
with a ResourcesExhausted error and no cluster allocation request is issued
(pinned by `TestSchedulerTaskTooBig`). -/
def submitTooBigCheck (st : instanceState) (t : Task) : SubmitOutcome :=
  if st.Available t.res then ⟨.init, none, true⟩
  else ⟨.done, some .resourcesExhausted, false⟩

/-- C6: when no instance type dominates a task's minimum resources,
`CanAllocate` returns `(false, ResourcesExhausted)`, `Allocate` (on a started
cluster) returns that error without consulting the manager, and the scheduler
immediately completes the task as done with a ResourcesExhausted error,
issuing no cluster request for it. -/
theorem C6_task_too_big_resources_exhausted (st : instanceState) (t : Task)
    (h : ∀ c ∈ st.configs, ¬ t.res ≤ c.res) :
    st.Available t.res = false ∧
    CanAllocate st t.res = (false, some .resourcesExhausted) ∧
    allocateEntry true st t.res = .errored .resourcesExhausted ∧
    submitTooBigCheck st t = ⟨.done, some .resourcesExhausted, false⟩ := by
  have hav : st.Available t.res = false := by
    unfold instanceState.Available
    rw [List.any_eq_false]
    intro c hc
    simpa using h c hc
  refine ⟨hav, ?_, ?_, ?_⟩
  · simp [CanAllocate, hav]
  · simp [allocateEntry, CanAllocate, hav]
  · simp [submitTooBigCheck, hav]

/-- Catalog with a single large instance type whose memory is far below the
too-big task's demand. -/
def tooBigCatalog : instanceState :=
  ⟨[⟨"x1e.8xlarge", ⟨32, 244 * GiB, 0⟩, 6048⟩], [], 3600, none⟩

/-- The too-big task of `TestSchedulerTaskTooBig`: `NewTask(10, 512<<30, 0)`. -/
def tooBigTask : Task := ⟨0, 0, ⟨10, 512 * GiB, 0⟩⟩

/-- C6 witness: the too-big scenario instantiated on a concrete catalog. -/
theorem C6_task_too_big_resources_exhausted_witness :
    allocateEntry true tooBigCatalog tooBigTask.res = .errored .resourcesExhausted ∧
    submitTooBigCheck tooBigCatalog tooBigTask = ⟨.done, some .resourcesExhausted, false⟩ :=
  ⟨(C6_task_too_big_resources_exhausted tooBigCatalog tooBigTask (by decide)).2.2.1,
    (C6_task_too_big_resources_exhausted tooBigCatalog tooBigTask (by decide)).2.2.2⟩

/-- C10: calling `Allocate` or `Probe` before `Start` has completed panics
with the uninitialized-ec2cluster message rather than returning an error;
after `Start` has completed the panic branch is unreachable for every
subsequent `Allocate` and `Probe` call. -/
theorem C10_uninitialized_cluster_panic :
    (∀ (st : instanceState) (r : Resources),
        allocateEntry false st r = .panicked uninitializedMsg) ∧
    probeEntry false = .panicked uninitializedMsg ∧
    (∀ c : clusterOnce, (startCluster c).started = true) ∧
    (∀ (st : instanceState) (r : Resources) (m : String),
        allocateEntry true st r ≠ .panicked m) ∧
    (∀ m : String, probeEntry true ≠ .panicked m) := by
  refine ⟨fun st r => rfl, rfl, fun c => rfl, ?_, ?_⟩
  · intro st r m
    show (if (CanAllocate st r).1 then EntryOutcome.proceeds
        else EntryOutcome.errored ((CanAllocate st r).2.getD ErrKind.other)) ≠
      EntryOutcome.panicked m
    split <;> simp
  · intro m
    simp [probeEntry]

/-! ### Scheduler loss handling, direct transfer, refcounts (sched, not under
src/; pinned by TestTaskLost, TestLostTasksSwitchAllocs, the direct-transfer
tests and TestSchedulerFailedLoadSuccessfulUnload) -/

/-- Scheduler-side view of one task: id, state, attempt counter, and the
alloc it is currently bound to (if any). -/
structure SchedTask where
  tid : Nat
  state : TaskState
  attempt : Nat
  alloc : Option Nat
deriving DecidableEq

/-- Scheduler state: the tracked tasks and the allocs in the scheduler's
view. -/
structure SchedState where
  tasks : List SchedTask
  allocs : List Nat
deriving DecidableEq

/-- Modelled from the spec: a task on a failed alloc transitions to lost and
re-enters the queue — state back to init, attempt counter incremented, alloc
binding cleared. -/
def taskLostRequeue (t : SchedTask) : SchedTask :=
  { t with state := .init, attempt := t.attempt + 1, alloc := none }

/-- Modelled from the spec: alloc keepalive failure with any error kind (the
kind argument is deliberately unused: Fatal, Canceled and generic failures are
treated identically).  Every task bound to the alloc is lost and requeued and
the alloc is evicted from the scheduler's view. -/
def keepaliveFail (s : SchedState) (a : Nat) (k : ErrKind) : SchedState :=
  { tasks := s.tasks.map fun t => if t.alloc = some a then taskLostRequeue t else t,
    allocs := s.allocs.filter fun b => b != a }

/-- A fresh alloc handed to the scheduler by the next cluster allocation. -/
def addAlloc (s : SchedState) (b : Nat) : SchedState :=
  { s with allocs := b :: s.allocs }

/-- Modelled from the spec: binding a task to an alloc; placement only ever
uses an alloc still in the scheduler's view. -/
def assign (s : SchedState) (tid b : Nat) : SchedState :=
  if b ∈ s.allocs then
    { s with tasks := s.tasks.map fun t =>
        if t.tid = tid then { t with state := .running, alloc := some b } else t }
  else s

/-- Scheduler state of the `TestTaskLost` scenario right before the keepalive
failure: three attempt-0 tasks running, two on alloc 10, one on alloc 11. -/
def lostDemoState : SchedState :=
  ⟨[⟨0, .running, 0, some 10⟩, ⟨1, .running, 0, some 10⟩, ⟨2, .running, 0, some 11⟩],
    [10, 11]⟩

/-- Scheduler state after alloc 11's keepalive fails with Fatal, a fresh alloc
12 arrives, and the lost task is reassigned. -/
def lostDemoAfter : SchedState :=
  assign (addAlloc (keepaliveFail lostDemoState 11 .fatal) 12) 2 12

/-- C7: on an alloc keepalive failure of any error kind, every task bound to
that alloc is requeued as init with its attempt counter incremented, tasks on
other allocs are untouched, the failed alloc is evicted from the scheduler's
view (so any subsequent placement uses a different alloc), and the treatment
is identical for all error kinds.  In the `TestTaskLost` scenario, after the
failure of alloc 11 and reassignment to a fresh alloc 12, the affected task
runs on alloc 12 with attempt 1 while the unaffected tasks keep attempt 0. -/
theorem C7_keepalive_failure_lost_and_requeued :
    (∀ (s : SchedState) (a : Nat) (k k' : ErrKind),
        keepaliveFail s a k = keepaliveFail s a k') ∧
    (∀ (s : SchedState) (a : Nat) (k : ErrKind) (t : SchedTask), t ∈ s.tasks →
        (t.alloc = some a → taskLostRequeue t ∈ (keepaliveFail s a k).tasks) ∧
        (t.alloc ≠ some a → t ∈ (keepaliveFail s a k).tasks)) ∧
    (∀ (s : SchedState) (a : Nat) (k : ErrKind), a ∉ (keepaliveFail s a k).allocs) ∧
    (∀ (s : SchedState) (a b : Nat) (k : ErrKind),
        b ∈ (keepaliveFail s a k).allocs → b ≠ a) ∧
    ((keepaliveFail lostDemoState 11 .fatal).tasks =
        [⟨0, .running, 0, some 10⟩, ⟨1, .running, 0, some 10⟩, ⟨2, .init, 1, none⟩] ∧
      (keepaliveFail lostDemoState 11 .fatal).allocs = [10] ∧
      lostDemoAfter.tasks =
        [⟨0, .running, 0, some 10⟩, ⟨1, .running, 0, some 10⟩, ⟨2, .running, 1, some 12⟩] ∧
      (11 : Nat) ∉ lostDemoAfter.allocs) := by
  refine ⟨fun s a k k' => rfl, ?_, ?_, ?_, by decide⟩
  · intro s a k t ht
    constructor
    · intro hta
      show taskLostRequeue t ∈
        s.tasks.map fun u => if u.alloc = some a then taskLostRequeue u else u
      refine List.mem_map.mpr ⟨t, ht, ?_⟩
      rw [if_pos hta]
    · intro hta
      show t ∈
        s.tasks.map fun u => if u.alloc = some a then taskLostRequeue u else u
      refine List.mem_map.mpr ⟨t, ht, ?_⟩
      rw [if_neg hta]
  · intro s a k hmem
    have := (List.mem_filter.mp hmem).2
    simp at this
  · intro s a b k hmem
    have := (List.mem_filter.mp hmem).2
    simpa using this

/-- C7 witness: the requeue property applied to the lost task of the
`TestTaskLost` scenario. -/
theorem C7_keepalive_failure_lost_and_requeued_witness :
    taskLostRequeue ⟨2, .running, 0, some 11⟩ ∈
      (keepaliveFail lostDemoState 11 .fatal).tasks :=
  ((C7_keepalive_failure_lost_and_requeued.2.1 lostDemoState 11 .fatal
      ⟨2, .running, 0, some 11⟩ (by decide)).1 (by decide))

/-- Direct-transfer capability flags of an extern task's source: whether the
source repository implements blobLocator and whether the source scheme is
supported by the mux. -/
structure XferTask where
  hasBlobLocator : Bool
  schemeSupported : Bool
deriving DecidableEq

/-- Modelled from the spec: the direct blob-to-blob transfer attempt, which
requires the source repository to implement blobLocator and the source scheme
to be supported by the mux, and returns NotSupported otherwise. -/
def directTransfer (t : XferTask) : Except ErrKind Unit :=
  if t.hasBlobLocator && t.schemeSupported then .ok () else .error .notSupported

/-- Modelled from the spec: the complete state trace of an extern task
together with its final NonDirectTransfer flag and error.  A successful
direct transfer completes the task directly; on NotSupported the scheduler
records NonDirectTransfer = true and the task travels the running → init
back-edge once, then reaches done via normal alloc-based execution. -/
def runXferTask (t : XferTask) : List TaskState × Bool × Option ErrKind :=
  match directTransfer t with
  | .ok _ => ([.init, .running, .done], false, none)
  | .error e => ([.init, .running, .init, .staging, .running, .done], true, some e)

/-- Modelled from the spec: whether the scheduler would attempt another
direct transfer given the task's NonDirectTransfer flag (it would not — the
flag prevents loops). -/
def retryDirect (nonDirectTransfer : Bool) : Bool := !nonDirectTransfer

/-- Number of running → init back-edges travelled along a state trace. -/
def countBackEdges : List TaskState → Nat
  | [] => 0
  | [_] => 0
  | a :: b :: rest =>
    (if a = .running ∧ b = .init then 1 else 0) + countBackEdges (b :: rest)

/-- C8: for an extern task whose source repository does not implement
blobLocator or whose scheme the mux does not support, the direct-transfer
attempt returns NotSupported, the task is marked NonDirectTransfer, travels
the running → init back-edge exactly once and still ends in done via the
alloc path; the NonDirectTransfer flag suppresses any further direct attempt,
and no extern trace ever travels the back-edge more than once. -/
theorem C8_direct_transfer_not_supported_fallback (t : XferTask)
    (h : ¬(t.hasBlobLocator = true ∧ t.schemeSupported = true)) :
    directTransfer t = .error .notSupported ∧
    (runXferTask t).2.1 = true ∧
    (runXferTask t).2.2 = some .notSupported ∧
    countBackEdges (runXferTask t).1 = 1 ∧
    (runXferTask t).1.getLast? = some .done ∧
    retryDirect (runXferTask t).2.1 = false ∧
    (∀ t' : XferTask, countBackEdges (runXferTask t').1 ≤ 1) := by
  have hcond : (t.hasBlobLocator && t.schemeSupported) = false := by
    cases hb : t.hasBlobLocator <;> cases hs : t.schemeSupported <;> simp_all
  have hd : directTransfer t = .error .notSupported := by
    simp [directTransfer, hcond]
  refine ⟨hd, ?_, ?_, ?_, ?_, ?_, ?_⟩
  · simp [runXferTask, hd]
  · simp [runXferTask, hd]
  · simp [runXferTask, hd, countBackEdges]
  · simp [runXferTask, hd]
  · simp [runXferTask, hd, retryDirect]
  · intro t'
    rcases ht' : directTransfer t' with e | u <;>
      simp [runXferTask, ht', countBackEdges]

/-- C8 witness: an extern task whose source scheme is not in the mux. -/
theorem C8_direct_transfer_not_supported_fallback_witness :
    directTransfer ⟨true, false⟩ = .error .notSupported ∧
    countBackEdges (runXferTask ⟨true, false⟩).1 = 1 :=
  ⟨(C8_direct_transfer_not_supported_fallback ⟨true, false⟩ (by decide)).1,
    (C8_direct_transfer_not_supported_fallback ⟨true, false⟩ (by decide)).2.2.2.1⟩

/-- Per-alloc refcount map: file digest to reference count (modelled with Nat
digests). -/
abbrev RefMap := List (Nat × Nat)

/-- Current refcount of a file (zero when absent). -/
def refGet (m : RefMap) (f : Nat) : Nat := (m.lookup f).getD 0

/-- Modelled from the spec: loading a file into the alloc's repository
increments its refcount. -/
def loadFile (m : RefMap) (f : Nat) : RefMap := (f, refGet m f + 1) :: m

/-- Modelled from the spec: unloading decrements the refcount, idempotently,
with a floor of zero. -/
def unloadFile (m : RefMap) (f : Nat) : RefMap := (f, refGet m f - 1) :: m

/-- Staging of a list of input files: each successful load increments its
file's refcount. -/
def loadAll (m : RefMap) (fs : List Nat) : RefMap := fs.foldl loadFile m

/-- Teardown at a terminal task state: every file that was loaded is
unloaded. -/
def unloadAll (m : RefMap) (fs : List Nat) : RefMap := fs.foldl unloadFile m

theorem refGet_loadFile (m : RefMap) (f g : Nat) :
    refGet (loadFile m f) g = if g = f then refGet m f + 1 else refGet m g := by
  by_cases h : g = f
  · subst h
    simp [loadFile, refGet, List.lookup]
  · have hbeq : (g == f) = false := beq_eq_false_iff_ne.mpr h
    simp [loadFile, refGet, List.lookup, hbeq, h]

theorem refGet_unloadFile (m : RefMap) (f g : Nat) :
    refGet (unloadFile m f) g = if g = f then refGet m f - 1 else refGet m g := by
  by_cases h : g = f
  · subst h
    simp [unloadFile, refGet, List.lookup]
  · have hbeq : (g == f) = false := beq_eq_false_iff_ne.mpr h
    simp [unloadFile, refGet, List.lookup, hbeq, h]

theorem refGet_loadAll (m : RefMap) (fs : List Nat) (g : Nat) :
    refGet (loadAll m fs) g = refGet m g + fs.count g := by
  induction fs generalizing m with
  | nil => simp [loadAll]
  | cons f fs ih =>
    show refGet (loadAll (loadFile m f) fs) g = refGet m g + (f :: fs).count g
    rw [ih, refGet_loadFile, List.count_cons]
    by_cases h : g = f
    · subst h
      simp
      omega
    · have hbeq : (f == g) = false := beq_eq_false_iff_ne.mpr (Ne.symm h)
      simp [h, hbeq]

theorem refGet_unloadAll (m : RefMap) (fs : List Nat) (g : Nat) :
    refGet (unloadAll m fs) g = refGet m g - fs.count g := by
  induction fs generalizing m with
  | nil => simp [unloadAll]
  | cons f fs ih =>
    show refGet (unloadAll (unloadFile m f) fs) g = refGet m g - (f :: fs).count g
    rw [ih, refGet_unloadFile, List.count_cons]
    by_cases h : g = f
    · subst h
      simp
      omega
    · have hbeq : (f == g) = false := beq_eq_false_iff_ne.mpr (Ne.symm h)
      simp [h, hbeq]

/-- C9: for every alloc refcount map and every list of files actually loaded
during staging (possibly only part of the task's inputs, when some load
fails), unloading exactly those files at the terminal state restores every
file's refcount to its pre-staging value; each load increments and each
unload decrements the per-file count, and unloading a file whose count is
already zero leaves it at zero (floor). -/
theorem C9_refcounts_restored_after_terminal_state :
    (∀ (m : RefMap) (loaded : List Nat) (f : Nat),
        refGet (unloadAll (loadAll m loaded) loaded) f = refGet m f) ∧
    (∀ (m : RefMap) (f : Nat), refGet (loadFile m f) f = refGet m f + 1) ∧
    (∀ (m : RefMap) (f : Nat), refGet (unloadFile m f) f = refGet m f - 1) ∧
    (∀ (m : RefMap) (f : Nat), refGet m f = 0 → refGet (unloadFile m f) f = 0) ∧
    (∀ (m : RefMap) (inputs : List Nat) (k f : Nat),
        refGet (unloadAll (loadAll m (inputs.take k)) (inputs.take k)) f = refGet m f) := by
  have hrestore : ∀ (m : RefMap) (loaded : List Nat) (f : Nat),
      refGet (unloadAll (loadAll m loaded) loaded) f = refGet m f := by
    intro m loaded f
    rw [refGet_unloadAll, refGet_loadAll]
    omega
  refine ⟨hrestore, ?_, ?_, ?_, fun m inputs k f => hrestore m (inputs.take k) f⟩
  · intro m f
    rw [refGet_loadFile]
    simp
  · intro m f
    rw [refGet_unloadFile]
    simp
  · intro m f h
    rw [refGet_unloadFile]
    simp [h]

/-- C9 witness: the zero-floor property applied to an empty refcount map. -/
theorem C9_refcounts_restored_after_terminal_state_witness :
    refGet (unloadFile [] 0) 0 = 0 :=
  C9_refcounts_restored_after_terminal_state.2.2.2.1 [] 0 rfl

end Reflow
